import Mathlib

/-!
Verification of the kneejerk page-scanner design.

The repository ships only `setup.py`: it declares the distribution name,
the dependencies (`requests` for HTTP, `beautifulsoup4` for HTML parsing)
and a console-script entry point `kneejerk = kneejerk.scanner:main`.
The module `kneejerk.scanner` itself is not part of the supplied tree, so
the scanning pipeline (fetch, extract_scripts, find_candidates, scan, CLI)
is modelled here from the specification, while the packaging facts are
taken from `setup.py` directly.

Strings are modelled as `List Char`; the HTTP world is a function from
URL to the outcome of the single GET request issued for it.
-/

namespace Kneejerk

/-- A character that may appear in an environment-variable name. -/
def isIdentChar (c : Char) : Bool := c.isAlpha || c.isDigit || c = '_'

/-- Modelled from the spec: the fixed textual pattern of `find_candidates`
is the known prefix convention `process.env.` followed by a maximal run of
identifier characters (spec section 4.1 and the scenario in section 8). -/
def envMarker : List Char := ['p','r','o','c','e','s','s','.','e','n','v','.']

/-- `startsWith pat l` is true when `pat` is an initial segment of `l`. -/
def startsWith : List Char → List Char → Bool
  | [], _ => true
  | _ :: _, [] => false
  | p :: ps, c :: cs => p = c && startsWith ps cs

/-- The variable name matched at the head of `l`, assuming `l` starts with
`envMarker`: the maximal identifier run after the marker. -/
def matchName (l : List Char) : List Char :=
  (List.drop envMarker.length l).takeWhile isIdentChar

/-- What remains of `l` after the marker and the matched name. -/
def matchRest (l : List Char) : List Char :=
  (List.drop envMarker.length l).drop (matchName l).length

/-- Fuel-indexed scanner: at each position either the pattern matches
(emit the name, continue after it, hence non-overlapping) or we advance by
one character. -/
def findCandsAux : Nat → List Char → List (List Char)
  | 0, _ => []
  | _, [] => []
  | fuel + 1, c :: cs =>
    if startsWith envMarker (c :: cs) then
      matchName (c :: cs) :: findCandsAux fuel (matchRest (c :: cs))
    else
      findCandsAux fuel cs

/-- Modelled from the spec: `find_candidates(script_text)` applies the fixed
textual pattern over the script text and returns all non-overlapping matches
in order of first appearance, duplicates preserved (spec section 4.1). -/
def find_candidates (text : List Char) : List (List Char) :=
  findCandsAux text.length text

/-- The marker is not empty. -/
theorem envMarker_length_pos : 0 < envMarker.length := by decide

theorem matchRest_length_le (c : Char) (cs : List Char) :
    (matchRest (c :: cs)).length ≤ cs.length := by
  simp only [matchRest, matchName, List.length_drop, List.length_cons]
  have h : 0 < envMarker.length := envMarker_length_pos
  omega

/-- The fuel argument is irrelevant once it covers the text length. -/
theorem findCandsAux_adequate :
    ∀ (f g : Nat) (text : List Char), text.length ≤ f → text.length ≤ g →
      findCandsAux f text = findCandsAux g text := by
  intro f
  induction f with
  | zero =>
    intro g text hf _
    have : text = [] := List.eq_nil_of_length_eq_zero (Nat.le_zero.mp hf)
    subst this
    cases g <;> rfl
  | succ f ih =>
    intro g text hf hg
    cases text with
    | nil => cases g <;> rfl
    | cons c cs =>
      cases g with
      | zero => simp at hg
      | succ g =>
        simp only [findCandsAux]
        by_cases h : startsWith envMarker (c :: cs) = true
        · simp only [h, if_true]
          have hlen := matchRest_length_le c cs
          have hcf : cs.length ≤ f := by simpa using hf
          have hcg : cs.length ≤ g := by simpa using hg
          rw [ih g (matchRest (c :: cs)) (le_trans hlen hcf) (le_trans hlen hcg)]
        · simp only [h, if_false]
          have hcf : cs.length ≤ f := by simpa using hf
          have hcg : cs.length ≤ g := by simpa using hg
          exact ih g cs hcf hcg

theorem find_candidates_nil : find_candidates [] = [] := rfl

theorem find_candidates_cons_neg {c : Char} {cs : List Char}
    (h : startsWith envMarker (c :: cs) = false) :
    find_candidates (c :: cs) = find_candidates cs := by
  simp [find_candidates, findCandsAux, h]

theorem find_candidates_cons_pos {c : Char} {cs : List Char}
    (h : startsWith envMarker (c :: cs) = true) :
    find_candidates (c :: cs) =
      matchName (c :: cs) :: find_candidates (matchRest (c :: cs)) := by
  simp only [find_candidates, List.length_cons, findCandsAux, h, if_true]
  rw [findCandsAux_adequate cs.length (matchRest (c :: cs)).length
    (matchRest (c :: cs)) (matchRest_length_le c cs) le_rfl]

theorem startsWith_append_self : ∀ (p t : List Char), startsWith p (p ++ t) = true := by
  intro p
  induction p with
  | nil => intro t; rfl
  | cons a p ih => intro t; simp [startsWith, ih t]

theorem startsWith_decomp :
    ∀ (p l : List Char), startsWith p l = true → l = p ++ List.drop p.length l := by
  intro p
  induction p with
  | nil => intro l _; simp
  | cons a p ih =>
    intro l h
    cases l with
    | nil => simp [startsWith] at h
    | cons c cs =>
      simp only [startsWith, Bool.and_eq_true, decide_eq_true_eq] at h
      obtain ⟨rfl, h2⟩ := h
      simpa using ih cs h2

theorem drop_takeWhile_length (p : Char → Bool) :
    ∀ (l : List Char), List.drop (l.takeWhile p).length l = l.dropWhile p := by
  intro l
  induction l with
  | nil => rfl
  | cons a l ih =>
    by_cases h : p a
    · simp [List.takeWhile_cons_of_pos h, List.dropWhile_cons_of_pos h, ih]
    · simp [List.takeWhile_cons_of_neg h, List.dropWhile_cons_of_neg h]

theorem dropWhile_head_false (p : Char → Bool) :
    ∀ (l : List Char) (d : Char) (ds : List Char),
      l.dropWhile p = d :: ds → p d = false := by
  intro l
  induction l with
  | nil => intro d ds h; simp [List.dropWhile] at h
  | cons a l ih =>
    intro d ds h
    by_cases ha : p a
    · rw [List.dropWhile_cons_of_pos ha] at h
      exact ih d ds h
    · rw [List.dropWhile_cons_of_neg ha] at h
      cases h
      simpa using ha

theorem takeWhile_append_eq {p : Char → Bool} {name rest : List Char}
    (hn : ∀ a ∈ name, p a = true)
    (hr : ∀ d ds, rest = d :: ds → p d = false) :
    (name ++ rest).takeWhile p = name := by
  induction name with
  | nil =>
    cases rest with
    | nil => rfl
    | cons d ds => simp [List.takeWhile_cons_of_neg, hr d ds rfl]
  | cons a name ih =>
    have ha : p a = true := hn a (List.mem_cons_self a name)
    simp only [List.cons_append, List.takeWhile_cons_of_pos ha, List.cons.injEq, true_and]
    exact ih fun b hb => hn b (List.mem_cons_of_mem a hb)

/-- The spec's description of `find_candidates`, as a declarative relation:
scanning left to right, at each position either the fixed pattern (the
marker followed by a maximal identifier run) does not match and the scan
advances one character, or it matches and the name is emitted, the scan
resuming after the matched region (non-overlapping), duplicates kept. -/
inductive MatchesSpec : List Char → List (List Char) → Prop where
  | nil : MatchesSpec [] []
  | skip (c : Char) (cs : List Char) (ms : List (List Char)) :
      startsWith envMarker (c :: cs) = false →
      MatchesSpec cs ms →
      MatchesSpec (c :: cs) ms
  | found (name rest : List Char) (ms : List (List Char)) :
      (∀ a ∈ name, isIdentChar a = true) →
      (∀ d ds, rest = d :: ds → isIdentChar d = false) →
      MatchesSpec rest ms →
      MatchesSpec (envMarker ++ (name ++ rest)) (name :: ms)

theorem findCandsAux_matchesSpec :
    ∀ (fuel : Nat) (text : List Char), text.length ≤ fuel →
      MatchesSpec text (findCandsAux fuel text) := by
  intro fuel
  induction fuel with
  | zero =>
    intro text h
    have : text = [] := List.eq_nil_of_length_eq_zero (Nat.le_zero.mp h)
    subst this
    exact MatchesSpec.nil
  | succ fuel ih =>
    intro text h
    cases text with
    | nil => exact MatchesSpec.nil
    | cons c cs =>
      have hcs : cs.length ≤ fuel := by simpa using h
      simp only [findCandsAux]
      by_cases hs : startsWith envMarker (c :: cs) = true
      · simp only [hs, if_true]
        have hdecomp : (c :: cs) =
            envMarker ++ (matchName (c :: cs) ++ matchRest (c :: cs)) := by
          have h0 := startsWith_decomp envMarker (c :: cs) hs
          have h1 : matchName (c :: cs) ++ matchRest (c :: cs) =
              List.drop envMarker.length (c :: cs) := by
            simp only [matchName, matchRest]
            rw [drop_takeWhile_length]
            exact List.takeWhile_append_dropWhile isIdentChar _
          rw [h1]
          exact h0
        have hn : ∀ a ∈ matchName (c :: cs), isIdentChar a = true := by
          intro a ha
          exact List.mem_takeWhile_imp ha
        have hr : ∀ d ds, matchRest (c :: cs) = d :: ds → isIdentChar d = false := by
          intro d ds hd
          apply dropWhile_head_false isIdentChar (List.drop envMarker.length (c :: cs)) d ds
          rw [← drop_takeWhile_length]
          exact hd
        have hrec : MatchesSpec (matchRest (c :: cs))
            (findCandsAux fuel (matchRest (c :: cs))) :=
          ih (matchRest (c :: cs)) (le_trans (matchRest_length_le c cs) hcs)
        set nm := matchName (c :: cs) with hnm
        set rs := matchRest (c :: cs) with hrs
        rw [hdecomp]
        exact MatchesSpec.found nm rs _ hn hr hrec
      · simp only [hs, if_false]
        exact MatchesSpec.skip c cs _ (Bool.not_eq_true _ ▸ hs) (ih cs hcs)

theorem find_candidates_found {name rest : List Char}
    (hn : ∀ a ∈ name, isIdentChar a = true)
    (hr : ∀ d ds, rest = d :: ds → isIdentChar d = false) :
    find_candidates (envMarker ++ (name ++ rest)) = name :: find_candidates rest := by
  have hc : envMarker ++ (name ++ rest) =
      'p' :: (['r','o','c','e','s','s','.','e','n','v','.'] ++ (name ++ rest)) := rfl
  have hs : startsWith envMarker
      ('p' :: (['r','o','c','e','s','s','.','e','n','v','.'] ++ (name ++ rest))) = true := by
    rw [← hc]
    exact startsWith_append_self envMarker (name ++ rest)
  have h1 : matchName (envMarker ++ (name ++ rest)) = name := by
    simp only [matchName]
    rw [List.drop_left]
    exact takeWhile_append_eq hn hr
  have h2 : matchRest (envMarker ++ (name ++ rest)) = rest := by
    simp only [matchRest]
    rw [h1, List.drop_left, List.drop_left]
  rw [hc, find_candidates_cons_pos hs, ← hc, h1, h2]

theorem matchesSpec_unique {text : List Char} {ms : List (List Char)}
    (h : MatchesSpec text ms) : ms = find_candidates text := by
  induction h with
  | nil => rfl
  | skip c cs ms hs _ ih => rw [find_candidates_cons_neg hs]; exact ih
  | found name rest ms hn hr _ ih => rw [find_candidates_found hn hr, ih]

/-- The opening script tag, as characters. -/
def scriptOpen : List Char := ['<','s','c','r','i','p','t','>']

/-- The closing script tag, as characters. -/
def scriptClose : List Char := ['<','/','s','c','r','i','p','t','>']

/-- `containsSub pat text` is true when `pat` occurs as a contiguous
substring of `text`. -/
def containsSub (pat : List Char) : List Char → Bool
  | [] => startsWith pat []
  | c :: cs => startsWith pat (c :: cs) || containsSub pat cs

/-- Splits `text` at the first occurrence of `pat`: returns the part before
the occurrence and the part after it, or `none` when `pat` does not occur. -/
def splitAtSub (pat : List Char) : List Char → Option (List Char × List Char)
  | [] => none
  | c :: cs =>
    if startsWith pat (c :: cs) then some ([], List.drop pat.length (c :: cs))
    else
      match splitAtSub pat cs with
      | none => none
      | some (pre, post) => some (c :: pre, post)

/-- Fuel-indexed extraction of script bodies: find an opening tag, take the
body up to the matching closing tag (to the end of input when unclosed),
and continue after it. -/
def extractAux : Nat → List Char → List (List Char)
  | 0, _ => []
  | fuel + 1, html =>
    match splitAtSub scriptOpen html with
    | none => []
    | some (_, afterOpen) =>
      match splitAtSub scriptClose afterOpen with
      | none => [afterOpen]
      | some (body, afterClose) => body :: extractAux fuel afterClose

/-- Modelled from the spec: `extract_scripts(html)` parses the HTML and
returns the contents of all script elements in document order, the empty
sequence when there are none (spec section 4.1). -/
def extract_scripts (html : List Char) : List (List Char) :=
  extractAux html.length html

/-- Modelled from the spec: outcome of the single HTTP GET the network
produces for a request (spec sections 4.1 and 7). -/
inductive FetchOutcome where
  | netFailure : FetchOutcome
  | timeout : FetchOutcome
  | response (status : Nat) (body : List Char) : FetchOutcome
deriving DecidableEq

/-- Modelled from the spec: the failure taxonomy of `fetch` — network
failure, timeout, or non-2xx response (spec section 7). -/
inductive FetchError where
  | networkFailure : FetchError
  | timeoutFailure : FetchError
  | httpStatus (status : Nat) : FetchError
deriving DecidableEq

/-- A status code counts as success exactly when it is 2xx. -/
def is2xx (status : Nat) : Bool := 200 ≤ status && status < 300

/-- The result of one GET: the body on a 2xx response, a `FetchError`
otherwise. -/
def fetchResult : FetchOutcome → Except FetchError (List Char)
  | FetchOutcome.netFailure => Except.error FetchError.networkFailure
  | FetchOutcome.timeout => Except.error FetchError.timeoutFailure
  | FetchOutcome.response status body =>
    if is2xx status then Except.ok body else Except.error (FetchError.httpStatus status)

/-- Modelled from the spec: `fetch(url)` issues a single HTTP GET with no
retries (spec section 4.1). The available network outcomes are a trace;
`fetch` consumes exactly one outcome and returns the rest of the trace
untouched. An exhausted trace behaves as a network failure. -/
def fetch : List FetchOutcome → Except FetchError (List Char) × List FetchOutcome
  | [] => (Except.error FetchError.networkFailure, [])
  | o :: rest => (fetchResult o, rest)

/-- The scan result: the URL and the ordered sequence of matched candidate
variable names found in the page's script content (spec section 3). -/
structure ScanResult where
  url : String
  candidates : List (List Char)
deriving DecidableEq

/-- The candidate tokens of an HTML document, in document order: the
concatenation of the candidates of each script body, scripts taken in
document order. -/
def documentTokens (html : List Char) : List (List Char) :=
  ((extract_scripts html).map find_candidates).flatten

/-- Modelled from the spec: `scan(url)` composes fetch, script extraction
and candidate matching sequentially; a fetch failure surfaces as an error
with no partial result (spec section 4.1). The world maps each URL to the
outcome of the one GET issued for it. -/
def scan (world : String → FetchOutcome) (url : String) : Except FetchError ScanResult :=
  match (fetch [world url]).1 with
  | Except.error e => Except.error e
  | Except.ok html =>
    Except.ok ⟨url, ((extract_scripts html).map find_candidates).flatten⟩

/-- One line of CLI output: a matched candidate name, or a fetch error
report. -/
inductive OutLine where
  | candidate (name : List Char) : OutLine
  | errorLine (e : FetchError) : OutLine
deriving DecidableEq

/-- Scan one URL for the CLI: its output lines, and whether its fetch
failed. -/
def runOne (world : String → FetchOutcome) (url : String) : List OutLine × Bool :=
  match scan world url with
  | Except.ok r => (r.candidates.map OutLine.candidate, false)
  | Except.error e => ([OutLine.errorLine e], true)

/-- Modelled from the spec: the console entry point accepts a list of URLs,
prints matched candidate names to standard output, continues past failing
targets, and exits 0 on completion and non-zero on fetch failure (spec
sections 6 and 7). Returns the output lines and the exit code. -/
def main (world : String → FetchOutcome) (urls : List String) : List OutLine × Nat :=
  ((urls.map fun u => (runOne world u).1).flatten,
   if urls.any fun u => (runOne world u).2 then 1 else 0)

/-- A URL is unreachable when its one GET ends in network failure or
timeout. -/
def unreachable (world : String → FetchOutcome) (url : String) : Prop :=
  world url = FetchOutcome.netFailure ∨ world url = FetchOutcome.timeout

theorem splitAtSub_eq_none (pat : List Char) :
    ∀ (text : List Char), containsSub pat text = false → splitAtSub pat text = none := by
  intro text
  induction text with
  | nil => intro _; rfl
  | cons c cs ih =>
    intro h
    simp only [containsSub, Bool.or_eq_false_iff] at h
    simp [splitAtSub, h.1, ih h.2]

theorem extract_scripts_of_no_open {html : List Char}
    (h : containsSub scriptOpen html = false) : extract_scripts html = [] := by
  cases html with
  | nil => rfl
  | cons c cs =>
    simp [extract_scripts, extractAux, splitAtSub_eq_none scriptOpen (c :: cs) h]

theorem findCandsAux_of_no_marker :
    ∀ (fuel : Nat) (text : List Char), containsSub envMarker text = false →
      findCandsAux fuel text = [] := by
  intro fuel
  induction fuel with
  | zero => intro text _; cases text <;> rfl
  | succ fuel ih =>
    intro text h
    cases text with
    | nil => rfl
    | cons c cs =>
      simp only [containsSub, Bool.or_eq_false_iff] at h
      simp [findCandsAux, h.1, ih cs h.2]

theorem find_candidates_of_no_marker {text : List Char}
    (h : containsSub envMarker text = false) : find_candidates text = [] :=
  findCandsAux_of_no_marker text.length text h

theorem scan_of_response {world : String → FetchOutcome} {url : String}
    {status : Nat} {html : List Char}
    (hw : world url = FetchOutcome.response status html)
    (h2 : is2xx status = true) :
    scan world url = Except.ok ⟨url, documentTokens html⟩ := by
  simp [scan, fetch, fetchResult, hw, h2, documentTokens]

theorem runOne_snd_false_iff (world : String → FetchOutcome) (u : String) :
    (runOne world u).2 = false ↔ ∃ r, scan world u = Except.ok r := by
  cases hscan : scan world u with
  | ok r => simp [runOne, hscan]
  | error e => simp [runOne, hscan]

/-- Directories lying strictly above the file named by a path: for the
path `a/b/f.py` these are `a` and `a/b`. -/
def ancestorDirs : List String → List (List String)
  | [] => []
  | [_] => []
  | s :: rest => [s] :: (ancestorDirs rest).map (fun d => s :: d)

/-- From src/setup.py: the supplied source tree, as file paths split into
segments. The tree holds only `setup.py`. -/
def sourceTree : List (List String) := [["setup.py"]]

/-- Modelled from the spec and setuptools semantics: a directory is a
package directory when the tree holds its `__init__.py` marker file. -/
def isPackageDir (tree : List (List String)) (d : List String) : Bool :=
  tree.contains (d ++ ["__init__.py"])

/-- Modelled from the spec: setuptools' find_packages() returns the
package directories discoverable in the source tree. -/
def find_packages (tree : List (List String)) : List (List String) :=
  ((tree.map ancestorDirs).flatten).filter (isPackageDir tree)

/-- Modelled from the spec: a dotted module is provided by the built
distribution when its parent package is found by find_packages() and its
module file exists in the tree. -/
def moduleProvided (tree : List (List String)) (m : List String) : Bool :=
  match m.getLast? with
  | none => false
  | some leaf =>
    (find_packages tree).contains m.dropLast &&
      tree.contains (m.dropLast ++ [leaf ++ ".py"])

/-- From src/setup.py: a console-script entry point, `script = module:attr`. -/
structure ConsoleScript where
  script : String
  module : String
  attrName : String
deriving DecidableEq

/-- From src/setup.py: the declared entry point
`kneejerk = kneejerk.scanner:main`. -/
def kneejerkEntryPoint : ConsoleScript :=
  ⟨"kneejerk", "kneejerk.scanner", "main"⟩

/-- The entry point's dotted module path, split at the dots. -/
def entryModulePath : List String := ["kneejerk", "scanner"]

/-- Outcome of invoking a console script: the import of the entry point's
module failed, or its main function ran. -/
inductive RunOutcome where
  | importFailed : RunOutcome
  | ranMain : RunOutcome
deriving DecidableEq

/-- Modelled from the spec: invoking a console script first imports the
entry point's module; when the module is not provided by the installed
distribution the invocation fails at import time, before any scan runs.
The second component counts the scans performed. -/
def consoleInvocation (tree : List (List String)) (m : List String) : RunOutcome × Nat :=
  if moduleProvided tree m then (RunOutcome.ranMain, 1) else (RunOutcome.importFailed, 0)

/-- A concrete fixture with three candidate tokens, one duplicated. -/
def c2Fixture : List Char :=
  "<script>process.env.AA; process.env.BB;</script><script>process.env.AA;</script>".data

/-- A concrete page with one script and one candidate token. -/
def c9Page : List Char := "<script>process.env.KEY;</script>".data

/-- C1: scanning a page whose HTML body is the literal
`<script>process.env.FOO; process.env.BAR;</script>` produces exactly the
candidate sequence FOO, BAR, in that order. -/
theorem c1_scan_scenario :
    scan (fun _ => FetchOutcome.response 200
        ("<script>process.env.FOO; process.env.BAR;</script>".data))
      "http://example.com" =
    Except.ok ⟨"http://example.com", [['F','O','O'], ['B','A','R']]⟩ := rfl

/-- C2: for any fixed HTML fixture, scanning a URL whose single GET serves
that fixture with a success status returns exactly the fixture's candidate
tokens, in document order (scripts in document order, matches in order of
appearance within each script). -/
theorem c2_scan_fixture_tokens (world : String → FetchOutcome) (url : String)
    (status : Nat) (html : List Char)
    (hw : world url = FetchOutcome.response status html)
    (h2 : is2xx status = true) :
    scan world url = Except.ok ⟨url, documentTokens html⟩ :=
  scan_of_response hw h2

/-- Witness for C2, on a fixture with three tokens, one duplicated. -/
theorem c2_scan_fixture_tokens_witness :
    scan (fun _ => FetchOutcome.response 200 c2Fixture) "u" =
      Except.ok ⟨"u", documentTokens c2Fixture⟩ ∧
    documentTokens c2Fixture = [['A','A'], ['B','B'], ['A','A']] :=
  ⟨c2_scan_fixture_tokens _ "u" 200 c2Fixture rfl rfl, by decide⟩

/-- C3: `find_candidates` returns precisely the left-to-right,
non-overlapping matches of the fixed pattern (the marker followed by a
maximal identifier run), in order of first appearance, duplicates
preserved: it satisfies the declarative matching relation, and is the only
sequence that does. -/
theorem c3_find_candidates_characterised (text : List Char) :
    MatchesSpec text (find_candidates text) ∧
    ∀ ms, MatchesSpec text ms → ms = find_candidates text :=
  ⟨findCandsAux_matchesSpec text.length text le_rfl,
   fun _ h => matchesSpec_unique h⟩

/-- Witness for C3 at a concrete text and a concrete derivation. -/
theorem c3_find_candidates_characterised_witness :
    ([] : List (List Char)) = find_candidates ['a'] :=
  (c3_find_candidates_characterised ['a']).2 []
    (MatchesSpec.skip 'a' [] [] (by decide) MatchesSpec.nil)

/-- C4: on HTML holding no script element, `extract_scripts` returns the
empty sequence. -/
theorem c4_extract_scripts_empty (html : List Char)
    (h : containsSub scriptOpen html = false) :
    extract_scripts html = [] :=
  extract_scripts_of_no_open h

/-- Witness for C4 on a concrete script-free page. -/
theorem c4_extract_scripts_empty_witness :
    extract_scripts ("<p>hello</p>".data) = [] :=
  c4_extract_scripts_empty ("<p>hello</p>".data) (by decide)

/-- C5: on text holding no token matching the fixed pattern,
`find_candidates` returns the empty sequence. -/
theorem c5_find_candidates_empty (text : List Char)
    (h : containsSub envMarker text = false) :
    find_candidates text = [] :=
  find_candidates_of_no_marker h

/-- Witness for C5 on a concrete marker-free text. -/
theorem c5_find_candidates_empty_witness :
    find_candidates ("hello world".data) = [] :=
  c5_find_candidates_empty ("hello world".data) (by decide)

/-- C6: scanning an unreachable URL yields a `FetchError` and never an
ok `ScanResult` — no partial result is produced. -/
theorem c6_scan_unreachable (world : String → FetchOutcome) (url : String)
    (h : unreachable world url) :
    (∃ e, scan world url = Except.error e) ∧
    ∀ r, scan world url ≠ Except.ok r := by
  have herr : ∃ e, scan world url = Except.error e := by
    cases h with
    | inl h => exact ⟨FetchError.networkFailure, by simp [scan, fetch, fetchResult, h]⟩
    | inr h => exact ⟨FetchError.timeoutFailure, by simp [scan, fetch, fetchResult, h]⟩
  refine ⟨herr, ?_⟩
  obtain ⟨e, he⟩ := herr
  intro r hr
  rw [he] at hr
  exact Except.noConfusion hr

/-- Witness for C6 on a concrete world where the GET fails. -/
theorem c6_scan_unreachable_witness :
    ∃ e, scan (fun _ => FetchOutcome.netFailure) "u" = Except.error e :=
  (c6_scan_unreachable _ "u" (Or.inl rfl)).1

/-- C7: `fetch` consumes exactly one network outcome per call and leaves
the rest of the trace untouched (one GET, no retries); it fails with a
`FetchError` exactly when that outcome is a network failure, a timeout, or
a non-2xx response; and on a 2xx response it returns the raw body. -/
theorem c7_fetch_single_get (o : FetchOutcome) (rest : List FetchOutcome) :
    (fetch (o :: rest)).2 = rest ∧
    ((∃ e, (fetch (o :: rest)).1 = Except.error e) ↔
      (o = FetchOutcome.netFailure ∨ o = FetchOutcome.timeout ∨
        ∃ s b, o = FetchOutcome.response s b ∧ is2xx s = false)) ∧
    (∀ s b, o = FetchOutcome.response s b → is2xx s = true →
      (fetch (o :: rest)).1 = Except.ok b) := by
  refine ⟨rfl, ?_, ?_⟩
  · cases o with
    | netFailure => simp [fetch, fetchResult]
    | timeout => simp [fetch, fetchResult]
    | response s b =>
      by_cases h : is2xx s = true
      · simp [fetch, fetchResult, h]
      · simp only [Bool.not_eq_true] at h
        simp [fetch, fetchResult, h]
  · intro s b hsb h2
    subst hsb
    simp [fetch, fetchResult, h2]

/-- Witness for C7 on a concrete 2xx outcome. -/
theorem c7_fetch_single_get_witness :
    (fetch [FetchOutcome.response 200 ['x']]).1 = Except.ok ['x'] :=
  (c7_fetch_single_get (FetchOutcome.response 200 ['x']) []).2.2 200 ['x'] rfl rfl

/-- C8: a successful fetch of a page with no script tags is not an error:
the scan returns an ok result with an empty candidate sequence and the CLI
exits with code 0. -/
theorem c8_no_match_not_error (world : String → FetchOutcome) (url : String)
    (status : Nat) (html : List Char)
    (hw : world url = FetchOutcome.response status html)
    (h2 : is2xx status = true)
    (hs : containsSub scriptOpen html = false) :
    scan world url = Except.ok ⟨url, []⟩ ∧ main world [url] = ([], 0) := by
  have hext : extract_scripts html = [] := extract_scripts_of_no_open hs
  have hscan : scan world url = Except.ok ⟨url, []⟩ := by
    have := scan_of_response hw h2
    rw [this, documentTokens, hext]
    rfl
  refine ⟨hscan, ?_⟩
  simp [main, runOne, hscan]

/-- Witness for C8 on a concrete script-free page. -/
theorem c8_no_match_not_error_witness :
    scan (fun _ => FetchOutcome.response 200 ("<p>x</p>".data)) "u" =
      Except.ok ⟨"u", []⟩ ∧
    main (fun _ => FetchOutcome.response 200 ("<p>x</p>".data)) ["u"] = ([], 0) :=
  c8_no_match_not_error _ "u" 200 ("<p>x</p>".data) rfl rfl (by decide)

/-- C9: the CLI exits 0 exactly when every requested scan completed, exits
non-zero when the fetch failed, and on a successful single-URL run prints
the matched candidate names to standard output. -/
theorem c9_cli_exit_codes (world : String → FetchOutcome) (urls : List String)
    (url : String) (status : Nat) (html : List Char) :
    ((main world urls).2 = 0 ↔ ∀ u ∈ urls, ∃ r, scan world u = Except.ok r) ∧
    (∀ e, (fetch [world url]).1 = Except.error e → (main world [url]).2 ≠ 0) ∧
    (world url = FetchOutcome.response status html → is2xx status = true →
      main world [url] = ((documentTokens html).map OutLine.candidate, 0)) := by
  refine ⟨?_, ?_, ?_⟩
  · by_cases hany : (urls.any fun u => (runOne world u).2) = true
    · simp only [main, hany, if_true]
      constructor
      · intro h; exact absurd h one_ne_zero
      · intro hall
        obtain ⟨u, hu, htrue⟩ := List.any_eq_true.mp hany
        have hfalse : (runOne world u).2 = false :=
          (runOne_snd_false_iff world u).mpr (hall u hu)
        rw [hfalse] at htrue
        exact absurd htrue (by simp)
    · simp only [Bool.not_eq_true] at hany
      simp only [main, hany, Bool.false_eq_true, if_false, true_iff]
      intro u hu
      exact (runOne_snd_false_iff world u).mp
        (by simpa using List.any_eq_false.mp hany u hu)
  · intro e he
    have hscan : scan world url = Except.error e := by
      simp [scan, he]
    simp [main, runOne, hscan]
  · intro hw h2
    have hscan : scan world url = Except.ok ⟨url, documentTokens html⟩ :=
      scan_of_response hw h2
    simp [main, runOne, hscan]

/-- Witness for C9 on a concrete world serving one script. -/
theorem c9_cli_exit_codes_witness :
    main (fun _ => FetchOutcome.response 200 c9Page) ["u"] =
      ((documentTokens c9Page).map OutLine.candidate, 0) ∧
    (documentTokens c9Page).map OutLine.candidate =
      [OutLine.candidate ['K','E','Y']] :=
  ⟨(c9_cli_exit_codes _ ["u"] "u" 200 c9Page).2.2 rfl rfl, by decide⟩

/-- C10: the declared console script resolves to `main` in module
`kneejerk.scanner`; that module is not provided by the supplied source
tree (find_packages finds no package), so invoking the console script
built from this source alone fails at import time, with zero scans
performed. -/
theorem c10_console_script_import_fails :
    kneejerkEntryPoint.module = "kneejerk.scanner" ∧
    moduleProvided sourceTree entryModulePath = false ∧
    consoleInvocation sourceTree entryModulePath = (RunOutcome.importFailed, 0) :=
  ⟨rfl, by decide, by decide⟩

end Kneejerk
